import Mathlib

/-
Shallow embedding of the BlockVault secure document redaction pipeline:
  * src/blockvault/services/redaction_service/base_redactor.py (data types)
  * src/blockvault/services/redaction_service/pdf_redactor.py  (PDFRedactor)
  * src/blockvault/services/redaction_service/docx_redactor.py (DOCXRedactor)
  * src/blockvault/api/redact.py                               (redact_file endpoint)

Conventions of the embedding:
  * Python floats (region coordinates) are modelled as exact rationals; no
    property verified here depends on floating-point rounding.
  * File contents are byte lists (`Bytes`); SHA-256 is an uninterpreted
    function parameter `H : Bytes -> String` (the properties verified concern
    which bytes are hashed and when, not the compression function).
  * The opened documents (fitz / python-docx) are abstract values carrying
    exactly the observations the source code makes of them.
-/

abbrev Bytes := List Nat

/-- Region payload entry: `RedactionRegion` dataclass of base_redactor.py.
`page` is a Python int (may be negative), coordinates are floats, modelled
as exact rationals. -/
structure RedactionRegion where
  page : Int
  x : Rat
  y : Rat
  w : Rat
  h : Rat
deriving DecidableEq

/-- Normalized redaction payload: `RedactionRequest` dataclass of
base_redactor.py.  Paths are plain strings (storage-relative). -/
structure RedactionRequest where
  file_id : String
  source_path : String
  output_path : String
  regions : List RedactionRegion
  patterns_applied : List String
  custom_terms : List String
  matched_texts : List String
  requested_by : String
deriving DecidableEq

/-- Outcome of a redaction: `RedactionResult` dataclass of base_redactor.py. -/
structure RedactionResult where
  redacted_path : String
  sha256 : String
  total_regions : Nat
  removed_terms : List String
deriving DecidableEq

/-! ### String helpers (Python `in` and `str.replace` on character lists) -/

/-- `startsWithCh hay needle` is true when `needle` is an initial segment of
`hay` (helper for the Python substring test). -/
def startsWithCh : List Char → List Char → Bool
  | _, [] => true
  | [], _ :: _ => false
  | h :: hs, n :: ns => (h = n) && startsWithCh hs ns

/-- `containsSeq needle hay`: Python `needle in hay` on character lists
(the empty needle is contained in everything). -/
def containsSeq (needle : List Char) : List Char → Bool
  | [] => needle.isEmpty
  | c :: tl => startsWithCh (c :: tl) needle || containsSeq needle tl

/-- Python `term in s` for strings. -/
def strContains (s term : String) : Bool :=
  containsSeq term.data s.data

/-- Python `s.replace(old, new)`: replace all non-overlapping occurrences left
to right.  For the empty `old` this model is the identity; the only call site
uses `new` of the same length as `old`, so the Python behaviour (inserting the
empty replacement) is also the identity there. -/
def replaceSeq (old new : List Char) : List Char → List Char
  | [] => []
  | c :: tl =>
    if h : old ≠ [] ∧ startsWithCh (c :: tl) old then
      new ++ replaceSeq old new ((c :: tl).drop old.length)
    else
      c :: replaceSeq old new tl
termination_by hay => hay.length
decreasing_by
  · have hlen : 0 < old.length := List.length_pos.mpr h.1
    simp only [List.length_drop, List.length_cons]
    omega
  · simp only [List.length_cons]
    omega

/-- Python `s.replace(old, new)` on strings. -/
def strReplace (s old new : String) : String :=
  ⟨replaceSeq old.data new.data s.data⟩

/-- Sorted list of strings, Python `sorted(...)`. -/
def sortStrings (l : List String) : List String :=
  l.insertionSort (· ≤ ·)

/-- ASCII lowercase of one character (`str.lower` on the ASCII range; the
lowercased values in this development are file extensions and hex addresses,
which are ASCII). -/
def charLower (c : Char) : Char :=
  if 65 ≤ c.toNat ∧ c.toNat ≤ 90 then Char.ofNat (c.toNat + 32) else c

/-- Python `s.lower()`. -/
def strLower (s : String) : String :=
  ⟨s.data.map charLower⟩

/-- Split a character list on a separator character (`str.split(sep)`). -/
def splitOnChar (sep : Char) : List Char → List (List Char)
  | [] => [[]]
  | c :: tl =>
    let rest := splitOnChar sep tl
    if c = sep then [] :: rest
    else
      match rest with
      | [] => [[c]]
      | hd :: tls => (c :: hd) :: tls

/-! ### PDFRedactor (pdf_redactor.py) -/

/-- Rectangle returned by `page.search_for` / built by `fitz.Rect`. -/
structure Rect where
  x0 : Rat
  y0 : Rat
  x1 : Rat
  y1 : Rat
deriving DecidableEq

/-- One redaction mark registered with `page.add_redact_annot(rect, fill=(0,0,0))`
followed by `annot.update()`. -/
structure Mark where
  page : Nat
  rect : Rect
deriving DecidableEq

/-- Abstract model of the PDF document opened with `fitz.open`:
`page_count` is `doc.page_count`; `search_for p t` is the list of rectangles
returned by `doc.load_page(p).search_for(t)`; `save_bytes marks` is the byte
content written by registering the given redaction marks in order, applying
them per page with `page.apply_redactions(images=fitz.PDF_REDACT_IMAGE_REMOVE)`
and saving with `garbage=4, deflate=True`. -/
structure PDFDoc where
  page_count : Nat
  search_for : Nat → String → List Rect
  save_bytes : List Mark → Bytes

/-- Inner loop of the PDF text-search phase for one page: the marks registered
and the terms appended to `redacted_terms`, in program order, for
`for term in self.request.matched_texts` (empty terms are skipped with
`continue`; a term is appended when `found` is non-empty). -/
def pdfPageTextMarks (doc : PDFDoc) (pageIndex : Nat) : List String → List Mark × List String
  | [] => ([], [])
  | term :: rest =>
    let tail := pdfPageTextMarks doc pageIndex rest
    if term = "" then tail
    else
      let found := doc.search_for pageIndex term
      ((found.map fun r => Mark.mk pageIndex r) ++ tail.1,
       (if found.isEmpty then [] else [term]) ++ tail.2)

/-- Outer loop of the PDF text-search phase over pages `0 .. n-1`
(`for page_index in range(doc.page_count)`), accumulating marks and
`redacted_terms` in program order. -/
def pdfTextMarks (doc : PDFDoc) (matched : List String) : Nat → List Mark × List String
  | 0 => ([], [])
  | n + 1 =>
    let prev := pdfTextMarks doc matched n
    let page := pdfPageTextMarks doc n matched
    (prev.1 ++ page.1, prev.2 ++ page.2)

/-- Spatial-region phase of `PDFRedactor.apply_redactions`: a region whose page
index is out of `[0, page_count)` is skipped (`continue`), otherwise a mark over
`fitz.Rect(x, y, x + w, y + h)` is registered. -/
def pdfRegionMarks (pageCount : Nat) : List RedactionRegion → List Mark
  | [] => []
  | region :: rest =>
    let tail := pdfRegionMarks pageCount rest
    if region.page < 0 ∨ (pageCount : Int) ≤ region.page then tail
    else Mark.mk region.page.toNat ⟨region.x, region.y, region.x + region.w, region.y + region.h⟩ :: tail

/-- `PDFRedactor.apply_redactions` (pdf_redactor.py lines 16-60), returning the
saved output bytes together with the `RedactionResult`.  `H` models
`hashlib.sha256(...).hexdigest()` on the saved file's bytes;
`total_regions` is `len(self.request.regions)` and `removed_terms` is
`sorted(set(redacted_terms))`. -/
def PDFRedactor.apply_redactions (H : Bytes → String) (doc : PDFDoc)
    (req : RedactionRequest) : Bytes × RedactionResult :=
  let textPhase := pdfTextMarks doc req.matched_texts doc.page_count
  let marks := textPhase.1 ++ pdfRegionMarks doc.page_count req.regions
  let outBytes := doc.save_bytes marks
  (outBytes,
   { redacted_path := req.output_path
     sha256 := H outBytes
     total_regions := req.regions.length
     removed_terms := sortStrings textPhase.2.dedup })

/-! ### DOCXRedactor (docx_redactor.py) -/

/-- Core properties of a python-docx document after `_strip_metadata`:
`revision` is a Python int. -/
structure DocxCoreProps where
  author : Option String
  comments : Option String
  keywords : Option String
  last_modified_by : Option String
  revision : Int
  subject : Option String
  title : Option String
deriving DecidableEq

/-- Abstract model of the python-docx `Document`: the paragraph texts, the cell
texts of every table (table → row → cell), and `render` giving the bytes
written by `doc.save` for the given final paragraphs, tables and core
properties. -/
structure DocxDoc where
  paragraphs : List String
  tables : List (List (List String))
  render : List String → List (List (List String)) → DocxCoreProps → Bytes

/-- Term set of `DOCXRedactor.apply_redactions` (docx_redactor.py lines 20-24):
`set(term for term in custom_terms if term)` then `add` of every pattern label
and every matched text (these two are NOT filtered for emptiness).  The Python
set is modelled as a deduplicated list; its iteration order is unspecified in
Python and no property verified here depends on the order chosen. -/
def docxTerms (req : RedactionRequest) : List String :=
  ((req.custom_terms.filter (· ≠ "")) ++ req.patterns_applied ++ req.matched_texts).dedup

/-- Substitution loop body for one text block (paragraph or cell):
`for term in terms: if term in text: text = text.replace(term, "█" * len(term))`. -/
def docxSubstText (terms : List String) (text : String) : String :=
  terms.foldl
    (fun t term =>
      if strContains t term then
        strReplace t term ⟨List.replicate term.length '█'⟩
      else t)
    text

/-- `DOCXRedactor.apply_redactions` (docx_redactor.py lines 16-50), returning
the saved output bytes and the `RedactionResult`.  When the term set is empty
the whole substitution block (including `removed_terms.extend`) is skipped;
`_strip_metadata` always runs; `total_regions` is `len(self.request.regions)`
although regions have no effect on DOCX. -/
def DOCXRedactor.apply_redactions (H : Bytes → String) (doc : DocxDoc)
    (req : RedactionRequest) : Bytes × RedactionResult :=
  let terms := docxTerms req
  let removed := if terms.isEmpty then [] else sortStrings terms
  let paragraphs :=
    if terms.isEmpty then doc.paragraphs
    else doc.paragraphs.map (docxSubstText terms)
  let tables :=
    if terms.isEmpty then doc.tables
    else doc.tables.map (fun table => table.map (fun row => row.map (docxSubstText terms)))
  let props : DocxCoreProps :=
    { author := none, comments := none, keywords := none
      last_modified_by := some req.requested_by, revision := 1
      subject := none, title := none }
  let outBytes := doc.render paragraphs tables props
  (outBytes,
   { redacted_path := req.output_path
     sha256 := H outBytes
     total_regions := req.regions.length
     removed_terms := removed })

/-! ### Orchestrator (api/redact.py `redact_file`) -/

/-- HTTP-level outcome of the endpoint: `abort(...)` codes plus `internal` for
uncaught exceptions (e.g. decrypt authentication failure → 500). -/
inductive HErr where
  | badRequest
  | notFound
  | forbidden
  | gone
  | unsupported
  | internal
deriving DecidableEq

/-- Success payload returned by `redact_file`. -/
structure Response where
  status : String
  file_id : String
  new_cid : Option String
  hash : String
  redacted_by : String
  anchor_tx : Option String
deriving DecidableEq

/-- Audit metadata embedded in the successor record (`redaction_meta`). -/
structure RedactionMeta where
  patterns : List String
  custom_terms : List String
  regions : List RedactionRegion
  removed_terms : List String
deriving DecidableEq

/-- Catalog document for a file.  Fields read with `rec.get(...)` in the
endpoint are `Option`; `parent_file_id` and `redaction_meta` are present only
on redaction successors. -/
structure RecordDoc where
  owner : Option String
  original_name : String
  enc_filename : String
  size : Nat
  created_at : Nat
  aad : Option String
  sha256 : String
  cid : Option String
  anchor_tx : Option String
  folder : Option String
  parent_file_id : Option String
  redaction_meta : Option RedactionMeta
deriving DecidableEq

/-- Effect trace events, recording the orchestrator's observable side effects
(paths are storage-relative). -/
inductive Event where
  | decrypted (dst : String)
  | redacted (dst : String)
  | encrypted (dst : String)
  | inserted
  | cleanupFailed (path : String)
deriving DecidableEq

/-- Mutable world the endpoint acts on: the storage directory's files and the
`files` catalog collection, plus the effect trace. -/
structure Store where
  fs : List (String × Bytes)
  catalog : List RecordDoc
  events : List Event

/-- Look a path up in the storage directory (first binding wins). -/
def fsGet : List (String × Bytes) → String → Option Bytes
  | [], _ => none
  | (q, b) :: tl, p => if q = p then some b else fsGet tl p

/-- Write a file (shadowing any previous binding). -/
def fsSet (fs : List (String × Bytes)) (p : String) (b : Bytes) : List (String × Bytes) :=
  (p, b) :: fs

/-- `os.remove`: drop every binding of the path. -/
def fsRemove (fs : List (String × Bytes)) (p : String) : List (String × Bytes) :=
  fs.filter (fun e => e.1 ≠ p)

/-- External collaborators of the endpoint.  `lookup`, `decrypt`, `encrypt`,
`new_enc_name`, `ipfs_add` and `new_id` model, from the spec's collaborator
interfaces, repository code that is not under src/ (`api/files._lookup_file`,
`core/crypto_cli`, `core/ipfs`, `core/db`): catalog lookup returns the parent
record and its canonical id or fails NotFound; decrypt fails closed (`none`)
on a wrong passphrase/AAD; encrypt may fail (`none` → uncaught exception);
publish and anchoring are best-effort and collapsed to `Option` exactly as the
endpoint's `try/except` does.  `parsePDF`/`parseDOCX` model opening the staged
plaintext with fitz / python-docx (`none` → uncaught parse exception).
`time1`, `time2`, `time3` are the successive `int(time.time()*1000)` readings
(lines 91, 92 and 139 of redact.py). -/
structure Env where
  lookup : String → Option (RecordDoc × String)
  decrypt : Bytes → String → Option String → Option Bytes
  encrypt : Bytes → String → Option String → Option Bytes
  sha256hex : Bytes → String
  parsePDF : Bytes → Option PDFDoc
  parseDOCX : Bytes → Option DocxDoc
  new_enc_name : String
  ipfs_add : Bytes → Option String
  anchor : String → Nat → Option String → Option String
  new_id : String
  time1 : Nat
  time2 : Nat
  time3 : Nat

/-- Staged decrypted plaintext name: `f"dec_{int(time.time()*1000)}_{rec['original_name']}"`. -/
def tmpPlainName (t : Nat) (originalName : String) : String :=
  "dec_" ++ toString t ++ "_" ++ originalName

/-- Redacted plaintext name: `f"redacted_{int(time.time()*1000)}_{rec['original_name']}"`. -/
def tmpRedactedName (t : Nat) (originalName : String) : String :=
  "redacted_" ++ toString t ++ "_" ++ originalName

/-- `_build_regions`: the raw payload entries are modelled by their parse
outcome (`none` = an entry raising KeyError/TypeError/ValueError); the first
malformed entry aborts the whole request with 400. -/
def buildRegions : List (Option RedactionRegion) → Except HErr (List RedactionRegion)
  | [] => .ok []
  | none :: _ => .error .badRequest
  | some r :: rest => (buildRegions rest).map (r :: ·)

/-- `pathlib.Path(...).suffix` on a storage-relative path string: the final
component's extension including the dot, empty for dotless or leading-dot
names. -/
def pathSuffix (p : String) : String :=
  let name := (splitOnChar '/' p.data).getLastD []
  match splitOnChar '.' name with
  | [] => ""
  | [_] => ""
  | first :: rest =>
    if first = [] ∧ rest.length = 1 then ""
    else ⟨'.' :: (first :: rest).getLastD []⟩

/-- JSON body of the request as the endpoint reads it.  `file_id` and
`passphrase` are `Option String` (`data.get`); a missing or empty string is
falsy.  Each raw region entry is modelled by its parse outcome.  `address` is
the authenticated requester attribute set by `require_auth`. -/
structure Payload where
  file_id : Option String
  passphrase : Option String
  redaction_regions : List (Option RedactionRegion)
  patterns_applied : List String
  custom_terms : List String
  matched_texts : List String
  address : String
deriving DecidableEq

/-- `_create_redactor` + `redactor.apply_redactions()`: dispatch purely on the
lowercased extension of the source path; unsupported extensions abort 415.
The redactor reads the staged plaintext bytes (`plainBytes`) and returns the
saved output bytes with the result. -/
def runRedactor (env : Env) (req : RedactionRequest) (plainBytes : Bytes) :
    Except HErr (Bytes × RedactionResult) :=
  let suffix := strLower (pathSuffix req.source_path)
  if suffix = ".pdf" then
    match env.parsePDF plainBytes with
    | none => .error .internal
    | some doc => .ok (PDFRedactor.apply_redactions env.sha256hex doc req)
  else if suffix = ".docx" then
    match env.parseDOCX plainBytes with
    | none => .error .internal
    | some doc => .ok (DOCXRedactor.apply_redactions env.sha256hex doc req)
  else .error .unsupported

/-- The `RedactionRequest` constructed by the endpoint (redact.py lines
102-111).  `matched_texts` is normalized as `list({str(t) for t in
matched_texts if t})` (deduplicated, truthy entries only; the Python set's
iteration order is unspecified and no verified property depends on the order
chosen here). -/
def builtRequest (p : Payload) (canonicalId requester tmpPlain tmpRedacted : String)
    (regions : List RedactionRegion) : RedactionRequest :=
  { file_id := canonicalId
    source_path := tmpPlain
    output_path := tmpRedacted
    regions := regions
    patterns_applied := p.patterns_applied
    custom_terms := p.custom_terms
    matched_texts := (p.matched_texts.filter (· ≠ "")).dedup
    requested_by := requester }

/-- Body of the `try:` block of `redact_file` (redact.py lines 93-162), from
the decrypt call to the catalog insert, threading the store through each side
effect. -/
def redactBody (env : Env) (p : Payload) (rec : RecordDoc)
    (canonicalId requester : String) (encBytes : Bytes)
    (tmpPlain tmpRedacted : String) (st : Store) : Except HErr Response × Store :=
  match env.decrypt encBytes (p.passphrase.getD "") rec.aad with
  | none => (.error .internal, st)
  | some plainBytes =>
    let st1 : Store := { st with fs := fsSet st.fs tmpPlain plainBytes,
                                 events := st.events ++ [.decrypted tmpPlain] }
    match buildRegions p.redaction_regions with
    | .error e => (.error e, st1)
    | .ok regions =>
      let req : RedactionRequest :=
        builtRequest p canonicalId requester tmpPlain tmpRedacted regions
      match runRedactor env req plainBytes with
      | .error e => (.error e, st1)
      | .ok (outBytes, result) =>
        let st2 : Store := { st1 with fs := fsSet st1.fs tmpRedacted outBytes,
                                      events := st1.events ++ [.redacted tmpRedacted] }
        let relEnc := "redacted/" ++ env.new_enc_name
        match env.encrypt outBytes (p.passphrase.getD "") rec.aad with
        | none => (.error .internal, st2)
        | some cipher =>
          let st3 : Store := { st2 with fs := fsSet st2.fs relEnc cipher,
                                        events := st2.events ++ [.encrypted relEnc] }
          let size := outBytes.length
          let cid := env.ipfs_add cipher
          let anchorTx := env.anchor result.sha256 size cid
          let record : RecordDoc :=
            { owner := rec.owner
              original_name := rec.original_name
              enc_filename := relEnc
              size := size
              created_at := env.time3
              aad := rec.aad
              sha256 := result.sha256
              cid := cid
              anchor_tx := anchorTx
              folder := rec.folder
              parent_file_id := some canonicalId
              redaction_meta := some
                { patterns := req.patterns_applied
                  custom_terms := req.custom_terms
                  regions := req.regions
                  removed_terms := result.removed_terms } }
          let st4 : Store := { st3 with catalog := st3.catalog ++ [record],
                                        events := st3.events ++ [.inserted] }
          (.ok { status := "success", file_id := env.new_id, new_cid := cid,
                 hash := result.sha256, redacted_by := requester,
                 anchor_tx := anchorTx }, st4)

/-- `finally:` cleanup for one temp path: `if path.exists(): os.remove(path)`,
an `OSError` from the removal (`rf path = true`) is logged (traced) and
swallowed. -/
def cleanupOne (rf : String → Bool) (st : Store) (path : String) : Store :=
  match fsGet st.fs path with
  | none => st
  | some _ =>
    if rf path then { st with events := st.events ++ [.cleanupFailed path] }
    else { st with fs := fsRemove st.fs path }

/-- `finally:` block of `redact_file`: attempt to delete the staged plaintext
and then the redacted plaintext. -/
def cleanup (rf : String → Bool) (st : Store) (tmpPlain tmpRedacted : String) : Store :=
  cleanupOne rf (cleanupOne rf st tmpPlain) tmpRedacted

/-- The `redact_file` endpoint (redact.py lines 68-169).  `rf` models which
`os.remove` calls fail with `OSError` during cleanup.  Aborts before the
`try:` block (missing field, unknown id, foreign owner, missing blob) return
the store untouched; everything after staging runs the `finally:` cleanup on
both exit paths. -/
def redact_file (env : Env) (rf : String → Bool) (p : Payload) (st : Store) :
    Except HErr Response × Store :=
  if p.file_id.getD "" = "" then (.error .badRequest, st)
  else if p.passphrase.getD "" = "" then (.error .badRequest, st)
  else
    match env.lookup (p.file_id.getD "") with
    | none => (.error .notFound, st)
    | some (rec, canonicalId) =>
      let requester := (strLower p.address)
      if rec.owner ≠ some requester then (.error .forbidden, st)
      else
        match fsGet st.fs rec.enc_filename with
        | none => (.error .gone, st)
        | some encBytes =>
          let tmpPlain := tmpPlainName env.time1 rec.original_name
          let tmpRedacted := tmpRedactedName env.time2 rec.original_name
          let r := redactBody env p rec canonicalId requester encBytes tmpPlain tmpRedacted st
          (r.1, cleanup rf r.2 tmpPlain tmpRedacted)

/-! ### Redactor-level lemmas -/

theorem mem_sortStrings (l : List String) (t : String) :
    t ∈ sortStrings l ↔ t ∈ l :=
  (List.perm_insertionSort (· ≤ ·) l).mem_iff

theorem mem_pdfPageTextMarks (doc : PDFDoc) (p : Nat) (t : String) :
    ∀ l : List String, t ∈ (pdfPageTextMarks doc p l).2 ↔
      t ∈ l ∧ t ≠ "" ∧ doc.search_for p t ≠ [] := by
  intro l
  induction l with
  | nil => simp [pdfPageTextMarks]
  | cons term rest ih =>
    simp only [pdfPageTextMarks]
    by_cases hterm : term = ""
    · rw [if_pos hterm, ih]
      subst hterm
      constructor
      · rintro ⟨h1, h2, h3⟩
        exact ⟨List.mem_cons_of_mem _ h1, h2, h3⟩
      · rintro ⟨h1, h2, h3⟩
        rcases List.mem_cons.mp h1 with h | h
        · exact absurd h h2
        · exact ⟨h, h2, h3⟩
    · rw [if_neg hterm]
      simp only [List.mem_append, ih, List.mem_cons]
      by_cases hf : (doc.search_for p term).isEmpty
      · rw [if_pos hf]
        have hf' : doc.search_for p term = [] := List.isEmpty_iff.mp hf
        constructor
        · rintro (h | ⟨h1, h2, h3⟩)
          · simp at h
          · exact ⟨Or.inr h1, h2, h3⟩
        · rintro ⟨h1 | h1, h2, h3⟩
          · subst h1; exact absurd hf' h3
          · exact Or.inr ⟨h1, h2, h3⟩
      · rw [if_neg hf]
        have hf' : doc.search_for p term ≠ [] := by
          intro h
          exact hf (by simp [h])
        constructor
        · rintro (h | ⟨h1, h2, h3⟩)
          · simp only [List.mem_singleton] at h
            subst h
            exact ⟨Or.inl rfl, hterm, hf'⟩
          · exact ⟨Or.inr h1, h2, h3⟩
        · rintro ⟨h1 | h1, h2, h3⟩
          · subst h1
            exact Or.inl (List.mem_singleton.mpr rfl)
          · exact Or.inr ⟨h1, h2, h3⟩

theorem mem_pdfTextMarks (doc : PDFDoc) (matched : List String) (t : String) :
    ∀ n : Nat, t ∈ (pdfTextMarks doc matched n).2 ↔
      ∃ p, p < n ∧ t ∈ (pdfPageTextMarks doc p matched).2 := by
  intro n
  induction n with
  | zero => simp [pdfTextMarks]
  | succ n ih =>
    simp only [pdfTextMarks, List.mem_append, ih]
    constructor
    · rintro (⟨p, hp, hm⟩ | hm)
      · exact ⟨p, Nat.lt_succ_of_lt hp, hm⟩
      · exact ⟨n, Nat.lt_succ_self n, hm⟩
    · rintro ⟨p, hp, hm⟩
      rcases Nat.lt_succ_iff_lt_or_eq.mp hp with h | h
      · exact Or.inl ⟨p, h, hm⟩
      · subst h; exact Or.inr hm

/-- Membership in the PDF result's `removed_terms`: exactly the non-empty
matched texts for which some in-range page has a non-empty search result. -/
theorem mem_pdf_removed (H : Bytes → String) (doc : PDFDoc) (req : RedactionRequest)
    (t : String) :
    t ∈ (PDFRedactor.apply_redactions H doc req).2.removed_terms ↔
      t ∈ req.matched_texts ∧ t ≠ "" ∧
        ∃ p, p < doc.page_count ∧ doc.search_for p t ≠ [] := by
  show t ∈ sortStrings (pdfTextMarks doc req.matched_texts doc.page_count).2.dedup ↔ _
  rw [mem_sortStrings, List.mem_dedup, mem_pdfTextMarks]
  constructor
  · rintro ⟨p, hp, hm⟩
    have h := (mem_pdfPageTextMarks doc p t req.matched_texts).mp hm
    exact ⟨h.1, h.2.1, p, hp, h.2.2⟩
  · rintro ⟨h1, h2, p, hp, h3⟩
    exact ⟨p, hp, (mem_pdfPageTextMarks doc p t req.matched_texts).mpr ⟨h1, h2, h3⟩⟩

/-- Membership in the DOCX term set: custom terms are filtered for emptiness,
pattern labels and matched texts are not. -/
theorem mem_docxTerms (req : RedactionRequest) (t : String) :
    t ∈ docxTerms req ↔
      ((t ∈ req.custom_terms ∧ t ≠ "") ∨ t ∈ req.patterns_applied ∨ t ∈ req.matched_texts) := by
  unfold docxTerms
  simp [List.mem_dedup, List.mem_append, List.mem_filter]

/-! ### Concrete fixtures for counterexamples and witnesses -/

/-- One-page PDF with an empty text layer. -/
def pdfDocOnePage : PDFDoc :=
  { page_count := 1
    search_for := fun _ _ => []
    save_bytes := fun _ => [7] }

/-- DOCX with a single paragraph "hello" and no tables. -/
def docxDocHello : DocxDoc :=
  { paragraphs := ["hello"]
    tables := []
    render := fun _ _ _ => [3] }

/-- Request carrying one region whose page index (5) is out of bounds for a
one-page document. -/
def reqOutOfBounds : RedactionRequest :=
  { file_id := "f1"
    source_path := "a.pdf"
    output_path := "b.pdf"
    regions := [⟨5, 0, 0, 10, 10⟩]
    patterns_applied := []
    custom_terms := []
    matched_texts := []
    requested_by := "alice" }

/-- Request whose only custom term, "zzz", occurs nowhere in `docxDocHello`. -/
def reqZzz : RedactionRequest :=
  { file_id := "f1"
    source_path := "a.docx"
    output_path := "b.docx"
    regions := []
    patterns_applied := []
    custom_terms := ["zzz"]
    matched_texts := []
    requested_by := "alice" }

/-- Request whose only input term is an empty pattern label. -/
def reqEmptyPattern : RedactionRequest :=
  { file_id := "f1"
    source_path := "a.docx"
    output_path := "b.docx"
    regions := []
    patterns_applied := [""]
    custom_terms := []
    matched_texts := []
    requested_by := "alice" }

/-! ### Claims about the redactors -/

/-- C3 (counterexample): on a one-page document, a request whose single region
has page index 5 is skipped (zero marks applied), yet `total_regions` is 1. -/
theorem pdf_total_regions_cex :
    (PDFRedactor.apply_redactions (fun _ => "h") pdfDocOnePage reqOutOfBounds).2.total_regions = 1 ∧
    pdfRegionMarks pdfDocOnePage.page_count reqOutOfBounds.regions = [] := by
  constructor <;> rfl

/-- C3 (amended): `total_regions` equals the length of the request's full
region list — out-of-bounds regions are counted even though no mark is applied
for them; the number of spatial marks actually applied is the number of
regions whose page index lies in `[0, page_count)`. -/
theorem pdf_total_regions_counts_request_list (H : Bytes → String) (doc : PDFDoc)
    (req : RedactionRequest) :
    (PDFRedactor.apply_redactions H doc req).2.total_regions = req.regions.length ∧
    (pdfRegionMarks doc.page_count req.regions).length =
      (req.regions.filter
        (fun r => decide (0 ≤ r.page ∧ r.page < (doc.page_count : Int)))).length := by
  refine ⟨rfl, ?_⟩
  induction req.regions with
  | nil => rfl
  | cons r rest ih =>
    simp only [pdfRegionMarks, List.filter_cons]
    by_cases h : r.page < 0 ∨ (doc.page_count : Int) ≤ r.page
    · rw [if_pos h]
      have h' : ¬ (0 ≤ r.page ∧ r.page < (doc.page_count : Int)) := by omega
      simp [h', ih]
    · rw [if_neg h]
      have h' : 0 ≤ r.page ∧ r.page < (doc.page_count : Int) := by omega
      simp [h', ih]

/-- C4 (counterexample): the custom term "zzz" occurs in no paragraph and no
table cell of `docxDocHello`, yet the result lists it in `removed_terms`. -/
theorem docx_removed_terms_cex :
    (DOCXRedactor.apply_redactions (fun _ => "h") docxDocHello reqZzz).2.removed_terms = ["zzz"] ∧
    docxDocHello.paragraphs = ["hello"] ∧
    docxDocHello.tables = [] ∧
    strContains "hello" "zzz" = false := by
  refine ⟨rfl, rfl, rfl, by decide⟩

/-- C4 (amended): the DOCX result's `removed_terms` lists exactly the members
of the term set (non-empty custom terms, all pattern labels, all matched
texts), independent of whether a term occurs anywhere in the document — the
right-hand side does not mention the document at all. -/
theorem docx_removed_terms_entire_term_set (H : Bytes → String) (doc : DocxDoc)
    (req : RedactionRequest) (t : String) :
    t ∈ (DOCXRedactor.apply_redactions H doc req).2.removed_terms ↔
      ((t ∈ req.custom_terms ∧ t ≠ "") ∨ t ∈ req.patterns_applied ∨ t ∈ req.matched_texts) := by
  rw [← mem_docxTerms]
  show t ∈ (if (docxTerms req).isEmpty then [] else sortStrings (docxTerms req)) ↔ _
  by_cases h : (docxTerms req).isEmpty
  · rw [if_pos h]
    simp [List.isEmpty_iff.mp h]
  · rw [if_neg h, mem_sortStrings]

/-- C7: a matched text is in the PDF result's `removed_terms` exactly when the
text-search loop found at least one occurrence of it on some page — an empty
term is never searched, and a term whose search result is empty on every page
of the document is never listed. -/
theorem pdf_removed_terms_iff_found (H : Bytes → String) (doc : PDFDoc)
    (req : RedactionRequest) (t : String) :
    t ∈ (PDFRedactor.apply_redactions H doc req).2.removed_terms ↔
      t ∈ req.matched_texts ∧ t ≠ "" ∧
        ∃ p, p < doc.page_count ∧ doc.search_for p t ≠ [] :=
  mem_pdf_removed H doc req t

/-- C8 (counterexample): an empty string supplied as a pattern label is a
member of the DOCX term set (only custom terms are filtered for emptiness) and
propagates into `removed_terms`. -/
theorem docx_term_set_cex :
    "" ∈ docxTerms reqEmptyPattern ∧
    reqEmptyPattern.custom_terms = [] ∧
    reqEmptyPattern.patterns_applied = [""] ∧
    reqEmptyPattern.matched_texts = [] ∧
    (DOCXRedactor.apply_redactions (fun _ => "h") docxDocHello reqEmptyPattern).2.removed_terms = [""] := by
  refine ⟨by decide, rfl, rfl, rfl, rfl⟩

/-- C8 (amended): the DOCX substitution term set is the deduplicated union of
the custom terms restricted to non-empty strings with ALL pattern labels and
ALL matched texts — an empty string coming from `patterns_applied` or
`matched_texts` is a member. -/
theorem docx_term_set_membership (req : RedactionRequest) (t : String) :
    t ∈ docxTerms req ↔
      ((t ∈ req.custom_terms ∧ t ≠ "") ∨ t ∈ req.patterns_applied ∨ t ∈ req.matched_texts) :=
  mem_docxTerms req t

/-- C10: the PDF redactor never reads `custom_terms` or `patterns_applied`:
changing those two fields of the request leaves the saved output bytes and the
whole result unchanged, and every removed term comes from `matched_texts`. -/
theorem pdf_ignores_custom_terms (H : Bytes → String) (doc : PDFDoc)
    (req : RedactionRequest) (cts pats : List String) :
    (PDFRedactor.apply_redactions H doc
        { req with custom_terms := cts, patterns_applied := pats }).1
      = (PDFRedactor.apply_redactions H doc req).1 ∧
    (PDFRedactor.apply_redactions H doc
        { req with custom_terms := cts, patterns_applied := pats }).2.removed_terms
      = (PDFRedactor.apply_redactions H doc req).2.removed_terms ∧
    (PDFRedactor.apply_redactions H doc req).2.removed_terms ⊆ req.matched_texts := by
  refine ⟨rfl, rfl, fun t ht => ?_⟩
  exact ((mem_pdf_removed H doc req t).mp ht).1

/-! ### Store and cleanup lemmas -/

theorem fsGet_fsRemove_self (fs : List (String × Bytes)) (p : String) :
    fsGet (fsRemove fs p) p = none := by
  induction fs with
  | nil => rfl
  | cons hd tl ih =>
    by_cases h : hd.1 = p
    · simpa [fsRemove, h] using ih
    · simpa [fsRemove, fsGet, h] using ih

theorem fsGet_fsRemove_of_none (fs : List (String × Bytes)) (p q : String)
    (h : fsGet fs q = none) : fsGet (fsRemove fs p) q = none := by
  induction fs with
  | nil => rfl
  | cons hd tl ih =>
    by_cases hq : hd.1 = q
    · simp [fsGet, hq] at h
    · simp only [fsGet, if_neg hq] at h
      by_cases hp : hd.1 = p
      · simpa [fsRemove, hp] using ih h
      · simpa [fsRemove, fsGet, hp, hq] using ih h

theorem cleanupOne_catalog (rf : String → Bool) (st : Store) (path : String) :
    (cleanupOne rf st path).catalog = st.catalog := by
  unfold cleanupOne
  split
  · rfl
  · split <;> rfl

theorem cleanup_catalog (rf : String → Bool) (st : Store) (a b : String) :
    (cleanup rf st a b).catalog = st.catalog := by
  unfold cleanup
  rw [cleanupOne_catalog, cleanupOne_catalog]

theorem cleanupOne_removes (rf : String → Bool) (st : Store) (path : String)
    (h : rf path = false) : fsGet (cleanupOne rf st path).fs path = none := by
  unfold cleanupOne
  split
  · assumption
  · rw [if_neg (by simp [h])]
    exact fsGet_fsRemove_self st.fs path

theorem cleanupOne_keeps_none (rf : String → Bool) (st : Store) (path q : String)
    (h : fsGet st.fs q = none) : fsGet (cleanupOne rf st path).fs q = none := by
  unfold cleanupOne
  split
  · exact h
  · split
    · exact h
    · exact fsGet_fsRemove_of_none st.fs path q h

/-! ### Pipeline structure lemmas -/

theorem runRedactor_sha (env : Env) (req : RedactionRequest) (b : Bytes)
    (outBytes : Bytes) (result : RedactionResult)
    (h : runRedactor env req b = .ok (outBytes, result)) :
    result.sha256 = env.sha256hex outBytes := by
  unfold runRedactor at h
  by_cases hpdf : strLower (pathSuffix req.source_path) = ".pdf"
  · rw [if_pos hpdf] at h
    cases hp : env.parsePDF b with
    | none => rw [hp] at h; exact absurd h (by simp)
    | some doc =>
      rw [hp] at h
      injection h with h2
      have h1 := congrArg Prod.fst h2
      have h3 := congrArg Prod.snd h2
      simp only at h1 h3
      rw [← h3, ← h1]
      rfl
  · rw [if_neg hpdf] at h
    by_cases hdocx : strLower (pathSuffix req.source_path) = ".docx"
    · rw [if_pos hdocx] at h
      cases hp : env.parseDOCX b with
      | none => rw [hp] at h; exact absurd h (by simp)
      | some doc =>
        rw [hp] at h
        injection h with h2
        have h1 := congrArg Prod.fst h2
        have h3 := congrArg Prod.snd h2
        simp only at h1 h3
        rw [← h3, ← h1]
        rfl
    · rw [if_neg hdocx] at h
      exact absurd h (by simp)

theorem redactBody_error_catalog (env : Env) (p : Payload) (rec : RecordDoc)
    (cid requester : String) (encBytes : Bytes) (tp tr : String) (st : Store) :
    ∀ e st', redactBody env p rec cid requester encBytes tp tr st = (.error e, st') →
      st'.catalog = st.catalog := by
  intro e st' h
  cases hd : env.decrypt encBytes (p.passphrase.getD "") rec.aad with
  | none =>
    simp only [redactBody, hd] at h
    injection h with h1 h2
    rw [← h2]
  | some plainBytes =>
    cases hr : buildRegions p.redaction_regions with
    | error e' =>
      simp only [redactBody, hd, hr] at h
      injection h with h1 h2
      rw [← h2]
    | ok regions =>
      cases hrr : runRedactor env (builtRequest p cid requester tp tr regions) plainBytes with
      | error e' =>
        simp only [redactBody, hd, hr, hrr] at h
        injection h with h1 h2
        rw [← h2]
      | ok pr =>
        obtain ⟨outBytes, result⟩ := pr
        cases he : env.encrypt outBytes (p.passphrase.getD "") rec.aad with
        | none =>
          simp only [redactBody, hd, hr, hrr, he] at h
          injection h with h1 h2
          rw [← h2]
        | some cipher =>
          simp only [redactBody, hd, hr, hrr, he] at h
          injection h with h1 h2
          exact absurd h1.symm (by simp)

theorem redactBody_ok_spec (env : Env) (p : Payload) (rec : RecordDoc)
    (cid requester : String) (encBytes : Bytes) (tp tr : String) (st : Store) :
    ∀ resp st', redactBody env p rec cid requester encBytes tp tr st = (.ok resp, st') →
      ∃ plainBytes regions outBytes result record,
        env.decrypt encBytes (p.passphrase.getD "") rec.aad = some plainBytes ∧
        buildRegions p.redaction_regions = .ok regions ∧
        runRedactor env (builtRequest p cid requester tp tr regions) plainBytes
          = .ok (outBytes, result) ∧
        resp.hash = result.sha256 ∧
        record.sha256 = result.sha256 ∧
        record.parent_file_id = some cid ∧
        st'.catalog = st.catalog ++ [record] := by
  intro resp st' h
  cases hd : env.decrypt encBytes (p.passphrase.getD "") rec.aad with
  | none =>
    simp only [redactBody, hd] at h
    injection h with h1 h2
    exact absurd h1.symm (by simp)
  | some plainBytes =>
    cases hr : buildRegions p.redaction_regions with
    | error e' =>
      simp only [redactBody, hd, hr] at h
      injection h with h1 h2
      exact absurd h1.symm (by simp)
    | ok regions =>
      cases hrr : runRedactor env (builtRequest p cid requester tp tr regions) plainBytes with
      | error e' =>
        simp only [redactBody, hd, hr, hrr] at h
        injection h with h1 h2
        exact absurd h1.symm (by simp)
      | ok pr =>
        obtain ⟨outBytes, result⟩ := pr
        cases he : env.encrypt outBytes (p.passphrase.getD "") rec.aad with
        | none =>
          simp only [redactBody, hd, hr, hrr, he] at h
          injection h with h1 h2
          exact absurd h1.symm (by simp)
        | some cipher =>
          simp only [redactBody, hd, hr, hrr, he] at h
          injection h with h1 h2
          refine ⟨plainBytes, regions, outBytes, result,
            { owner := rec.owner
              original_name := rec.original_name
              enc_filename := "redacted/" ++ env.new_enc_name
              size := outBytes.length
              created_at := env.time3
              aad := rec.aad
              sha256 := result.sha256
              cid := env.ipfs_add cipher
              anchor_tx := env.anchor result.sha256 outBytes.length (env.ipfs_add cipher)
              folder := rec.folder
              parent_file_id := some cid
              redaction_meta := some
                { patterns := (builtRequest p cid requester tp tr regions).patterns_applied
                  custom_terms := (builtRequest p cid requester tp tr regions).custom_terms
                  regions := (builtRequest p cid requester tp tr regions).regions
                  removed_terms := result.removed_terms } },
            rfl, rfl, hrr, ?_, rfl, rfl, ?_⟩
          · injection h1 with h1'
            rw [← h1']
          · rw [← h2]

/-! ### Claims about the orchestrator -/

/-- C1: whenever the endpoint returns an error — any fatal step failed
(validation, lookup, authorization, decrypt, region normalization, dispatch or
redaction, re-encryption) — no successor record is inserted: the catalog is
unchanged.  The insert is the last step of the `try:` body, so it runs only
after every fatal step has succeeded. -/
theorem redact_failure_keeps_catalog (env : Env) (rf : String → Bool) (p : Payload)
    (st : Store) (e : HErr)
    (h : (redact_file env rf p st).1 = .error e) :
    (redact_file env rf p st).2.catalog = st.catalog := by
  unfold redact_file at h ⊢
  by_cases h1 : p.file_id.getD "" = ""
  · rw [if_pos h1]
  · rw [if_neg h1] at h ⊢
    by_cases h2 : p.passphrase.getD "" = ""
    · rw [if_pos h2]
    · rw [if_neg h2] at h ⊢
      cases hl : env.lookup (p.file_id.getD "") with
      | none => rfl
      | some pr =>
        obtain ⟨rec, cid⟩ := pr
        rw [hl] at h
        dsimp only at h ⊢
        by_cases ho : rec.owner ≠ some (strLower p.address)
        · rw [if_pos ho]
        · rw [if_neg ho] at h ⊢
          cases hg : fsGet st.fs rec.enc_filename with
          | none => rfl
          | some encBytes =>
            rw [hg] at h
            dsimp only at h ⊢
            rcases hb : redactBody env p rec cid (strLower p.address) encBytes
                (tmpPlainName env.time1 rec.original_name)
                (tmpRedactedName env.time2 rec.original_name) st with ⟨res, st'⟩
            rw [hb] at h
            dsimp only at h ⊢
            rw [cleanup_catalog]
            subst h
            exact redactBody_error_catalog env p rec cid (strLower p.address) encBytes _ _ st e st' hb

/-- C2: on every successful redaction (the dispatch covers both the PDF and
the DOCX redactor), the hash in the response and in the inserted successor
record is `sha256hex` of the output bytes saved by the redactor — computed
before re-encryption, which takes those same bytes as input and leaves the
hash untouched. -/
theorem redact_success_hash (env : Env) (rf : String → Bool) (p : Payload) (st : Store)
    (resp : Response) (h : (redact_file env rf p st).1 = .ok resp) :
    ∃ rec cid regions plainBytes outBytes result record,
      env.lookup (p.file_id.getD "") = some (rec, cid) ∧
      runRedactor env
          (builtRequest p cid (strLower p.address)
            (tmpPlainName env.time1 rec.original_name)
            (tmpRedactedName env.time2 rec.original_name) regions)
          plainBytes
        = .ok (outBytes, result) ∧
      result.sha256 = env.sha256hex outBytes ∧
      resp.hash = env.sha256hex outBytes ∧
      record.sha256 = env.sha256hex outBytes ∧
      (redact_file env rf p st).2.catalog = st.catalog ++ [record] := by
  unfold redact_file at h ⊢
  by_cases h1 : p.file_id.getD "" = ""
  · rw [if_pos h1] at h
    exact absurd h (by simp)
  · rw [if_neg h1] at h ⊢
    by_cases h2 : p.passphrase.getD "" = ""
    · rw [if_pos h2] at h
      exact absurd h (by simp)
    · rw [if_neg h2] at h ⊢
      cases hl : env.lookup (p.file_id.getD "") with
      | none =>
        rw [hl] at h
        exact absurd h (by simp)
      | some pr =>
        obtain ⟨rec, cid⟩ := pr
        rw [hl] at h
        dsimp only at h ⊢
        by_cases ho : rec.owner ≠ some (strLower p.address)
        · rw [if_pos ho] at h
          exact absurd h (by simp)
        · rw [if_neg ho] at h ⊢
          cases hg : fsGet st.fs rec.enc_filename with
          | none =>
            rw [hg] at h
            exact absurd h (by simp)
          | some encBytes =>
            rw [hg] at h
            dsimp only at h ⊢
            rcases hb : redactBody env p rec cid (strLower p.address) encBytes
                (tmpPlainName env.time1 rec.original_name)
                (tmpRedactedName env.time2 rec.original_name) st with ⟨res, st'⟩
            rw [hb] at h
            dsimp only at h ⊢
            subst h
            obtain ⟨pb, regions, outBytes, result, record, hdec, hreg, hrun, hhash, hrsha,
              hparent, hcat⟩ :=
              redactBody_ok_spec env p rec cid (strLower p.address) encBytes _ _ st resp st' hb
            have hsha := runRedactor_sha env _ pb outBytes result hrun
            refine ⟨rec, cid, regions, pb, outBytes, result, record, rfl, hrun, hsha, ?_, ?_, ?_⟩
            · rw [hhash, hsha]
            · rw [hrsha, hsha]
            · rw [cleanup_catalog, hcat]

/-- Which `os.remove` calls fail during cleanup never influences the
endpoint's response: the response is computed before the `finally:` block
runs, and the cleanup swallows its `OSError`s. -/
theorem redact_response_ignores_rf (env : Env) (rf rf' : String → Bool) (p : Payload)
    (st : Store) :
    (redact_file env rf p st).1 = (redact_file env rf' p st).1 := by
  unfold redact_file
  dsimp only
  repeat' split
  all_goals rfl

/-- C5: on every exit path, the `finally:` block deletes both temporary
plaintext files when their removal does not fail, and which removals fail
never changes the endpoint's response (a failed removal is only traced). -/
theorem redact_cleanup_tmp_files (env : Env) (rf rf' : String → Bool) (p : Payload)
    (st : Store) (rec : RecordDoc) (cid : String)
    (hl : env.lookup (p.file_id.getD "") = some (rec, cid))
    (hp1 : rf (tmpPlainName env.time1 rec.original_name) = false)
    (hp2 : rf (tmpRedactedName env.time2 rec.original_name) = false)
    (ha1 : fsGet st.fs (tmpPlainName env.time1 rec.original_name) = none)
    (ha2 : fsGet st.fs (tmpRedactedName env.time2 rec.original_name) = none) :
    (redact_file env rf p st).1 = (redact_file env rf' p st).1 ∧
    fsGet (redact_file env rf p st).2.fs (tmpPlainName env.time1 rec.original_name) = none ∧
    fsGet (redact_file env rf p st).2.fs (tmpRedactedName env.time2 rec.original_name) = none := by
  refine ⟨redact_response_ignores_rf env rf rf' p st, ?_⟩
  unfold redact_file
  by_cases h1 : p.file_id.getD "" = ""
  · rw [if_pos h1]
    exact ⟨ha1, ha2⟩
  · rw [if_neg h1]
    by_cases h2 : p.passphrase.getD "" = ""
    · rw [if_pos h2]
      exact ⟨ha1, ha2⟩
    · rw [if_neg h2]
      rw [hl]
      dsimp only
      by_cases ho : rec.owner ≠ some (strLower p.address)
      · rw [if_pos ho]
        exact ⟨ha1, ha2⟩
      · rw [if_neg ho]
        cases hg : fsGet st.fs rec.enc_filename with
        | none => exact ⟨ha1, ha2⟩
        | some encBytes =>
          dsimp only
          refine ⟨?_, ?_⟩
          · unfold cleanup
            exact cleanupOne_keeps_none rf _ _ _ (cleanupOne_removes rf _ _ hp1)
          · unfold cleanup
            exact cleanupOne_removes rf _ _ hp2

/-- C6: when the authenticated requester is not the parent record's owner the
endpoint fails with 403 and returns the world untouched — no decrypt, no
redaction, no re-encryption, no temp file, no inserted record (the whole store,
including the effect trace, is exactly the input store). -/
theorem redact_foreign_requester_forbidden (env : Env) (rf : String → Bool) (p : Payload)
    (st : Store) (rec : RecordDoc) (cid : String)
    (hfid : p.file_id.getD "" ≠ "")
    (hpass : p.passphrase.getD "" ≠ "")
    (hl : env.lookup (p.file_id.getD "") = some (rec, cid))
    (howner : rec.owner ≠ some (strLower p.address)) :
    redact_file env rf p st = (.error .forbidden, st) := by
  unfold redact_file
  rw [if_neg hfid, if_neg hpass, hl]
  dsimp only
  rw [if_pos howner]

/-! ### Concrete end-to-end fixtures -/

/-- Parent record owned by "alice". -/
def parentRecAlice : RecordDoc :=
  { owner := some "alice"
    original_name := "contract.pdf"
    enc_filename := "blob.enc"
    size := 10
    created_at := 0
    aad := some "tag"
    sha256 := "parenthash"
    cid := none
    anchor_tx := none
    folder := none
    parent_file_id := none
    redaction_meta := none }

/-- Environment where every collaborator succeeds and both timestamp reads for
the temp names fall in the same millisecond. -/
def envConc : Env :=
  { lookup := fun fid => if fid = "f1" then some (parentRecAlice, "f1") else none
    decrypt := fun b _ _ => some b
    encrypt := fun b _ _ => some b
    sha256hex := fun _ => "newhash"
    parsePDF := fun _ => some pdfDocOnePage
    parseDOCX := fun _ => none
    new_enc_name := "newblob.enc"
    ipfs_add := fun _ => none
    anchor := fun _ _ _ => none
    new_id := "f2"
    time1 := 1700000000000
    time2 := 1700000000000
    time3 := 1700000000001 }

/-- Valid owner request searching for one term. -/
def payloadA : Payload :=
  { file_id := some "f1"
    passphrase := some "pw"
    redaction_regions := []
    patterns_applied := []
    custom_terms := []
    matched_texts := ["ssn"]
    address := "Alice" }

/-- A different concurrent request for the same parent record. -/
def payloadB : Payload :=
  { payloadA with matched_texts := [] }

/-- Request with no file id. -/
def payloadNoId : Payload :=
  { payloadA with file_id := none }

/-- Request by "Bob", who does not own the parent record. -/
def payloadBob : Payload :=
  { payloadA with address := "Bob" }

/-- Initial world: the parent blob on disk, the parent record in the catalog. -/
def st0 : Store :=
  { fs := [("blob.enc", [1, 2, 3])]
    catalog := [parentRecAlice]
    events := [] }

/-- Response of the successful run of `payloadA` against `envConc`/`st0`. -/
def respConc : Response :=
  { status := "success"
    file_id := "f2"
    new_cid := none
    hash := "newhash"
    redacted_by := "alice"
    anchor_tx := none }

/-- C9: the staged temp plaintext path is a function of the millisecond
timestamp and the parent's original filename alone — two distinct concurrent
requests for the same parent processed in the same millisecond stage their
plaintext at the identical path `dec_1700000000000_contract.pdf` (both runs
record the same `decrypted` path as their first side effect). -/
theorem tmp_names_collide_same_millisecond :
    payloadA ≠ payloadB ∧
    (redact_file envConc (fun _ => false) payloadA st0).2.events.head? =
      some (.decrypted "dec_1700000000000_contract.pdf") ∧
    (redact_file envConc (fun _ => false) payloadB st0).2.events.head? =
      some (.decrypted "dec_1700000000000_contract.pdf") := by
  refine ⟨by decide, by decide, by decide⟩

/-! ### Witnesses -/

theorem redact_failure_keeps_catalog_witness :
    (redact_file envConc (fun _ => false) payloadNoId st0).1 = .error .badRequest ∧
    (redact_file envConc (fun _ => false) payloadNoId st0).2.catalog = st0.catalog :=
  ⟨rfl,
   redact_failure_keeps_catalog envConc (fun _ => false) payloadNoId st0 .badRequest rfl⟩

theorem redact_success_hash_witness :
    ∃ rec cid regions plainBytes outBytes result record,
      envConc.lookup (payloadA.file_id.getD "") = some (rec, cid) ∧
      runRedactor envConc
          (builtRequest payloadA cid (strLower payloadA.address)
            (tmpPlainName envConc.time1 rec.original_name)
            (tmpRedactedName envConc.time2 rec.original_name) regions)
          plainBytes
        = .ok (outBytes, result) ∧
      result.sha256 = envConc.sha256hex outBytes ∧
      respConc.hash = envConc.sha256hex outBytes ∧
      record.sha256 = envConc.sha256hex outBytes ∧
      (redact_file envConc (fun _ => false) payloadA st0).2.catalog = st0.catalog ++ [record] :=
  redact_success_hash envConc (fun _ => false) payloadA st0 respConc (by rfl)

theorem redact_cleanup_tmp_files_witness :
    (redact_file envConc (fun _ => false) payloadA st0).1 =
      (redact_file envConc (fun _ => true) payloadA st0).1 ∧
    fsGet (redact_file envConc (fun _ => false) payloadA st0).2.fs
      (tmpPlainName envConc.time1 parentRecAlice.original_name) = none ∧
    fsGet (redact_file envConc (fun _ => false) payloadA st0).2.fs
      (tmpRedactedName envConc.time2 parentRecAlice.original_name) = none :=
  redact_cleanup_tmp_files envConc (fun _ => false) (fun _ => true) payloadA st0
    parentRecAlice "f1" (by decide) rfl rfl (by decide) (by decide)

theorem redact_foreign_requester_forbidden_witness :
    redact_file envConc (fun _ => false) payloadBob st0 = (.error .forbidden, st0) :=
  redact_foreign_requester_forbidden envConc (fun _ => false) payloadBob st0
    parentRecAlice "f1" (by decide) (by decide) (by decide) (by decide)
